import Mathlib

/-!
Verification model of `autobahn/twisted/rawsocket.py` (WAMP-over-RawSocket
transport).  The Python classes `WampRawSocketProtocol` and
`WampRawSocketFactory` are embedded shallowly: the protocol object's mutable
attributes become a `Proto` record, each Python method becomes a Lean function
from state to state, Python exceptions become an `Option PyExc` component of
the result, and the debug log lines (`log.msg` guarded by `self.factory.debug`)
become a `List LogTag` output stream.  The external collaborators (the WAMP
serializer, the application session, the Twisted transport) are modelled at
their interface boundary, as the spec prescribes.  The length-prefix framing is
the semantics of `twisted.protocols.basic.Int32StringReceiver` (struct format
`"!I"`: 4-byte big-endian unsigned length, then the payload), which the
protocol class inherits.
-/

namespace RawSocket

/-- Bytes on the wire; a well-formed byte has value < 256. -/
abbrev Byte := Nat

/-- Opaque WAMP message values delivered to / taken from the session. -/
abbrev Msg := Nat

/-- The Python exceptions that can cross the boundaries of this module:
`TransportLost`, `SerializationError`, `ProtocolError` (autobahn),
`AttributeError`, `AssertionError`, `TypeError` (Python builtins), and a
generic constructor for any other application exception. -/
inductive PyExc where
  | transportLost
  | serializationError
  | protocolError
  | attributeError
  | assertionError
  | typeError
  | otherExc (n : Nat)
  deriving DecidableEq, Repr

/-- The wrapped value of a Twisted connection-loss `reason` (`reason.value`):
`ConnectionDone` (graceful close), `ConnectionAborted` (from
`abortConnection()`), or any other failure (reset, protocol violation, ...). -/
inductive LossReason where
  | connectionDone
  | connectionAborted
  | other (n : Nat)
  deriving DecidableEq, Repr

/-- `isinstance(reason.value, ConnectionDone)` from `connectionLost`. -/
def isConnectionDone : LossReason → Bool
  | .connectionDone => true
  | _ => false

/-- Tags for the `log.msg` lines the protocol can emit (debug only). -/
inductive LogTag where
  | connMade
  | connLost
  | rxOctets
  | rxMsg
  | txMsg
  | txOctets
  | openRaised
  | closeRaised
  | protoErr
  | internalErr
  deriving DecidableEq, Repr

/-- Observable calls made on the bound application session, in order. -/
inductive TEvent where
  | onOpen
  | onMessage (m : Msg)
  | onClose (wasClean : Bool)
  deriving DecidableEq, Repr

/-- Environment model of one application session object: whether `onOpen`
raises, which messages make `onMessage` raise, and whether `onClose` raises
(possibly depending on the `wasClean` argument). -/
structure SessionB where
  onOpenRaises : Bool
  onMessageRaises : Msg → Bool
  onCloseRaises : Bool → Bool

/-- Environment model of the `factory` argument handed to
`WampRawSocketFactory.__init__`: either not callable at all, or callable with
a fixed result of its zero-argument invocation (a session object, or a raised
exception — e.g. `TypeError` for a callable with mandatory parameters). -/
inductive SessionCtor where
  | notCallable
  | callable (call0 : Except PyExc SessionB)

/-- Interface model of a WAMP serializer: `serialize` yields the payload bytes
plus the is-binary hint, `unserialize` yields the ordered list of decoded
messages; either may raise. -/
structure Serializer where
  serialize : Msg → Except PyExc (List Byte × Bool)
  unserialize : List Byte → Except PyExc (List Msg)

/-- `WampRawSocketFactory` after construction: the session constructor
(`self._factory`), the serializer (`self._serializer`) and the debug flag. -/
structure WampRawSocketFactory where
  _factory : SessionCtor
  _serializer : Serializer
  debug : Bool

/-- `callable(factory)` for our constructor model. -/
def callableB : SessionCtor → Bool
  | .notCallable => false
  | .callable _ => true

/-- `WampRawSocketFactory.__init__(self, factory, serializer, debug=False)`:
`assert(callable(factory))`, then store the three fields.  A failing assert
raises `AssertionError` at construction time. -/
def factoryInit (f : SessionCtor) (ser : Serializer) (dbg : Bool) :
    Except PyExc WampRawSocketFactory :=
  if callableB f then .ok ⟨f, ser, dbg⟩ else .error .assertionError

/-- The underlying Twisted transport, at its interface boundary: whether it
offers `abortConnection` (ProcessProtocol transports do not) and `getPeer`,
the frames written so far (`transport.write`, in order), and the pending
connection loss that `loseConnection` / `abortConnection` schedule (Twisted
delivers `connectionLost` asynchronously, on a later reactor turn). -/
structure Transport where
  hasAbortConnection : Bool
  hasGetPeer : Bool
  written : List (List Byte)
  pendingLoss : Option LossReason
  deriving DecidableEq, Repr

/-- `transport.loseConnection()`: schedule a graceful close; the local loss
reason is `ConnectionDone`.  A no-op if a disconnect is already pending. -/
def loseConnection (t : Transport) : Transport :=
  if t.pendingLoss.isSome then t else { t with pendingLoss := some .connectionDone }

/-- `transport.abortConnection()`: schedule an immediate teardown; the loss
reason is `ConnectionAborted` (it supersedes a pending graceful close). -/
def abortConnection (t : Transport) : Transport :=
  { t with pendingLoss := some .connectionAborted }

/-- The mutable state of one `WampRawSocketProtocol` instance.
`sessionAttr` models the `_session` Python attribute: `none` means the
attribute was never assigned (reading it raises `AttributeError`), `some none`
means `self._session = None`, `some (some b)` means a session is bound. -/
structure Proto where
  sessionAttr : Option (Option SessionB)
  peer : String
  recvd : List Byte
  transport : Transport
  trace : List TEvent

/-- Result of running one Python method: the state after the call, the debug
log lines emitted, and the exception propagating out of the call, if any. -/
structure Res where
  st : Proto
  logs : List LogTag
  exc : Option PyExc

/-- `if self.factory.debug: log.msg(...)` — emits one log line iff debug. -/
def dlog (d : Bool) (t : LogTag) : List LogTag :=
  if d then [t] else []

/-! ## Frame codec (`Int32StringReceiver` semantics)

Each frame is a 4-byte big-endian unsigned length `N` followed by `N` payload
bytes.  `dataReceived` appends to the receive buffer and repeatedly extracts
complete frames, invoking `stringReceived` on each payload in order and
retaining any incomplete trailing bytes. -/

/-- Big-endian 4-byte encoding of a length (struct pack `"!I"`). -/
def be32enc (n : Nat) : List Byte :=
  [n / 16777216 % 256, n / 65536 % 256, n / 256 % 256, n % 256]

/-- Big-endian decoding of a 4-byte length prefix (struct unpack `"!I"`). -/
def be32dec : List Byte → Nat
  | [a, b, c, d] => ((a * 256 + b) * 256 + c) * 256 + d
  | _ => 0

/-- One frame on the wire: the 4-byte big-endian length prefix, then the
payload. -/
def frame (p : List Byte) : List Byte :=
  be32enc p.length ++ p

/-- Concatenation of a list of byte chunks. -/
def catl : List (List Byte) → List Byte
  | [] => []
  | x :: xs => x ++ catl xs

/-- The body of the extraction loop, with explicit fuel (each iteration
consumes at least 4 buffered bytes, so `buf.length` is always enough fuel). -/
def extractGo : Nat → List Byte → List (List Byte) × List Byte
  | 0, buf => ([], buf)
  | fuel + 1, buf =>
      if 4 ≤ buf.length then
        if buf.length < 4 + be32dec (buf.take 4) then ([], buf)
        else
          ((buf.drop 4).take (be32dec (buf.take 4)) ::
             (extractGo fuel (buf.drop (4 + be32dec (buf.take 4)))).1,
           (extractGo fuel (buf.drop (4 + be32dec (buf.take 4)))).2)
      else ([], buf)

/-- The extraction loop of `Int32StringReceiver.dataReceived`: split a buffer
into the list of complete frame payloads (in input byte order) and the
incomplete remainder, which stays buffered. -/
def extractFrames (buf : List Byte) : List (List Byte) × List Byte :=
  extractGo buf.length buf

/-- A buffer holding no complete frame: shorter than the prefix, or shorter
than prefix plus announced payload length. -/
def noFrame (buf : List Byte) : Prop :=
  buf.length < 4 ∨ buf.length < 4 + be32dec (buf.take 4)

/-! ## `WampRawSocketProtocol` methods -/

/-- `isOpen(self)`: `return self._session is not None`.  Raises
`AttributeError` if the `_session` attribute was never assigned (which happens
when the session constructor raised inside `connectionMade`). -/
def isOpen (s : Proto) : Except PyExc Bool :=
  match s.sessionAttr with
  | none => .error .attributeError
  | some v => .ok v.isSome

/-- `close(self)`: `self.transport.loseConnection()` if open, else raise
`TransportLost`. -/
def close (s : Proto) : Proto × Option PyExc :=
  match isOpen s with
  | .error e => (s, some e)
  | .ok true => ({ s with transport := loseConnection s.transport }, none)
  | .ok false => (s, some .transportLost)

/-- `abort(self)`: `self.transport.abortConnection()` if the transport has it
(ProcessProtocol transports do not: fall back to `loseConnection()`) and the
transport is open, else raise `TransportLost`. -/
def abort (s : Proto) : Proto × Option PyExc :=
  match isOpen s with
  | .error e => (s, some e)
  | .ok true =>
      if s.transport.hasAbortConnection then
        ({ s with transport := abortConnection s.transport }, none)
      else
        ({ s with transport := loseConnection s.transport }, none)
  | .ok false => (s, some .transportLost)

/-- `Int32StringReceiver.sendString`: write the length-prefixed frame. -/
def sendString (p : List Byte) (s : Proto) : Proto :=
  { s with transport := { s.transport with written := s.transport.written ++ [frame p] } }

/-- `send(self, msg)`: if open, serialize and write (a serializer failure is
re-raised as `SerializationError`, with no write and no teardown); if not
open, raise `TransportLost`. -/
def send (fac : WampRawSocketFactory) (m : Msg) (s : Proto) : Res :=
  match isOpen s with
  | .error e => ⟨s, [], some e⟩
  | .ok true =>
      match fac._serializer.serialize m with
      | .error _ => ⟨s, dlog fac.debug .txMsg, some .serializationError⟩
      | .ok (payload, _) =>
          ⟨sendString payload s, dlog fac.debug .txMsg ++ dlog fac.debug .txOctets, none⟩
  | .ok false => ⟨s, [], some .transportLost⟩

/-- The `for msg in ...: self._session.onMessage(msg)` loop body of
`stringReceived`: dispatch each decoded message in order; stop at the first
raised exception (`AttributeError` if no session is bound, or the session's
own exception from `onMessage`). -/
def dispatchMsgs (fac : WampRawSocketFactory) : List Msg → Proto → Res
  | [], s => ⟨s, [], none⟩
  | m :: ms, s =>
      match s.sessionAttr with
      | some (some b) =>
          if b.onMessageRaises m then
            ⟨{ s with trace := s.trace ++ [.onMessage m] },
              dlog fac.debug .rxMsg, some (.otherExc 0)⟩
          else
            ⟨(dispatchMsgs fac ms { s with trace := s.trace ++ [.onMessage m] }).st,
             dlog fac.debug .rxMsg ++
               (dispatchMsgs fac ms { s with trace := s.trace ++ [.onMessage m] }).logs,
             (dispatchMsgs fac ms { s with trace := s.trace ++ [.onMessage m] }).exc⟩
      | _ => ⟨s, dlog fac.debug .rxMsg, some .attributeError⟩

/-- Log tag of the two `except` branches of `stringReceived`: a
`ProtocolError` gets the "WAMP Protocol Error" line, everything else the
"WAMP Internal Error" line.  Both branches then call `self.abort()`. -/
def rxErrTag (e : PyExc) : LogTag :=
  if e = .protocolError then .protoErr else .internalErr

/-- `stringReceived(self, payload)`: unserialize the payload and forward each
message to the session, in order; on any exception from decoding or dispatch,
log (debug only) and abort the connection.  An exception raised by `abort()`
itself (e.g. `AttributeError`/`TransportLost` when no session is bound)
propagates out. -/
def stringReceived (fac : WampRawSocketFactory) (payload : List Byte) (s : Proto) : Res :=
  match fac._serializer.unserialize payload with
  | .error e =>
      ⟨(abort s).1, dlog fac.debug .rxOctets ++ dlog fac.debug (rxErrTag e), (abort s).2⟩
  | .ok msgs =>
      match (dispatchMsgs fac msgs s).exc with
      | none =>
          ⟨(dispatchMsgs fac msgs s).st,
           dlog fac.debug .rxOctets ++ (dispatchMsgs fac msgs s).logs, none⟩
      | some e =>
          ⟨(abort (dispatchMsgs fac msgs s).st).1,
           dlog fac.debug .rxOctets ++ (dispatchMsgs fac msgs s).logs ++
             dlog fac.debug (rxErrTag e),
           (abort (dispatchMsgs fac msgs s).st).2⟩

/-- The extraction loop of `Int32StringReceiver.dataReceived` after the
complete frames of the buffer have been determined: call `stringReceived` on
each, in order; an exception escaping `stringReceived` aborts the loop and
propagates.  (`stringReceived` never touches the receive buffer, so
extracting all complete frames first is equivalent to the interleaved loop of
the Twisted source.) -/
def dispatchFrames (fac : WampRawSocketFactory) : List (List Byte) → Proto → Res
  | [], s => ⟨s, [], none⟩
  | p :: ps, s =>
      match (stringReceived fac p s).exc with
      | none =>
          ⟨(dispatchFrames fac ps (stringReceived fac p s).st).st,
           (stringReceived fac p s).logs ++
             (dispatchFrames fac ps (stringReceived fac p s).st).logs,
           (dispatchFrames fac ps (stringReceived fac p s).st).exc⟩
      | some e => ⟨(stringReceived fac p s).st, (stringReceived fac p s).logs, some e⟩

/-- `Int32StringReceiver.dataReceived(self, data)`: append to the receive
buffer, extract every complete frame, dispatch each to `stringReceived` in
input byte order, and retain the incomplete remainder. -/
def dataReceived (fac : WampRawSocketFactory) (data : List Byte) (s : Proto) : Res :=
  dispatchFrames fac (extractFrames (s.recvd ++ data)).1
    { s with recvd := (extractFrames (s.recvd ++ data)).2 }

/-- `connectionMade(self)`: resolve the peer (`"?"` when the transport lacks
`getPeer`), construct the session via the factory's callable and call
`onOpen`; if construction or `onOpen` raises, log (debug only) and call
`self.abort()` — whose own exception, if any, propagates (in particular, when
the constructor raised, `self._session` was never assigned, so `abort()`
raises `AttributeError`). -/
def setPeer (s0 : Proto) : Proto :=
  { s0 with peer := if s0.transport.hasGetPeer then "peer" else "?" }

/-- The successful part of session binding in `connectionMade`:
`self._session = self.factory._factory()` followed by the `onOpen` call
(recorded in the trace whether or not `onOpen` then raises). -/
def bindSession (b : SessionB) (s : Proto) : Proto :=
  { s with sessionAttr := some (some b), trace := s.trace ++ [.onOpen] }

def connectionMade (fac : WampRawSocketFactory) (s0 : Proto) : Res :=
  match fac._factory with
  | .notCallable =>
      ⟨(abort (setPeer s0)).1,
       dlog fac.debug .connMade ++ dlog fac.debug .openRaised,
       (abort (setPeer s0)).2⟩
  | .callable (.error _) =>
      ⟨(abort (setPeer s0)).1,
       dlog fac.debug .connMade ++ dlog fac.debug .openRaised,
       (abort (setPeer s0)).2⟩
  | .callable (.ok b) =>
      if b.onOpenRaises then
        ⟨(abort (bindSession b (setPeer s0))).1,
         dlog fac.debug .connMade ++ dlog fac.debug .openRaised,
         (abort (bindSession b (setPeer s0))).2⟩
      else
        ⟨bindSession b (setPeer s0), dlog fac.debug .connMade, none⟩

/-- `connectionLost(self, reason)`: compute
`wasClean = isinstance(reason.value, ConnectionDone)` and call
`self._session.onClose(wasClean)`; any exception in the `try` block
(including `AttributeError` when `_session` is unset or `None`) is caught and
only logged (debug only); finally `self._session = None`. -/
def connectionLost (fac : WampRawSocketFactory) (r : LossReason) (s : Proto) : Res :=
  match s.sessionAttr with
  | some (some b) =>
      ⟨{ s with sessionAttr := some none,
                trace := s.trace ++ [.onClose (isConnectionDone r)] },
        dlog fac.debug .connLost ++
          (if b.onCloseRaises (isConnectionDone r) then dlog fac.debug .closeRaised
           else []),
        none⟩
  | _ =>
      ⟨{ s with sessionAttr := some none },
        dlog fac.debug .connLost ++ dlog fac.debug .closeRaised, none⟩

/-! ## Reactor driver

One connection, driven by the single-threaded reactor: `connectionMade`
first; then the inbound reads, delivered one `dataReceived` at a time — but
only while no teardown is pending, since both `loseConnection` and
`abortConnection` stop further reads and schedule `connectionLost` for a later
reactor turn; finally the pending `connectionLost`, if any, is delivered. -/

/-- A fresh protocol instance wired to a fresh transport: the `_session`
attribute does not exist yet. -/
def initState (hasAbort hasPeer : Bool) : Proto :=
  ⟨none, "", [], ⟨hasAbort, hasPeer, [], none⟩, []⟩

/-- Deliver the reads in order, while the connection is up. -/
def runReads (fac : WampRawSocketFactory) : List (List Byte) → Proto → Res
  | [], s => ⟨s, [], none⟩
  | d :: ds, s =>
      if s.transport.pendingLoss.isSome then ⟨s, [], none⟩
      else
        match (dataReceived fac d s).exc with
        | none =>
            ⟨(runReads fac ds (dataReceived fac d s).st).st,
             (dataReceived fac d s).logs ++
               (runReads fac ds (dataReceived fac d s).st).logs,
             (runReads fac ds (dataReceived fac d s).st).exc⟩
        | some e => ⟨(dataReceived fac d s).st, (dataReceived fac d s).logs, some e⟩

/-- Deliver the pending `connectionLost`, if one was scheduled. -/
def settle (fac : WampRawSocketFactory) (s : Proto) : Res :=
  match s.transport.pendingLoss with
  | some r => connectionLost fac r s
  | none => ⟨s, [], none⟩

/-- A complete run of one connection: establishment, the given sequence of
network reads, then the delivery of any pending loss event.  An exception
escaping `connectionMade` or `dataReceived` (possible only in the degenerate
states modelled faithfully from the source) stops the run. -/
def runConn (fac : WampRawSocketFactory) (hasAbort hasPeer : Bool)
    (reads : List (List Byte)) : Res :=
  match (connectionMade fac (initState hasAbort hasPeer)).exc with
  | some e =>
      ⟨(connectionMade fac (initState hasAbort hasPeer)).st,
       (connectionMade fac (initState hasAbort hasPeer)).logs, some e⟩
  | none =>
      match (runReads fac reads (connectionMade fac (initState hasAbort hasPeer)).st).exc with
      | some e =>
          ⟨(runReads fac reads (connectionMade fac (initState hasAbort hasPeer)).st).st,
           (connectionMade fac (initState hasAbort hasPeer)).logs ++
             (runReads fac reads (connectionMade fac (initState hasAbort hasPeer)).st).logs,
           some e⟩
      | none =>
          ⟨(settle fac (runReads fac reads (connectionMade fac (initState hasAbort hasPeer)).st).st).st,
           (connectionMade fac (initState hasAbort hasPeer)).logs ++
             (runReads fac reads (connectionMade fac (initState hasAbort hasPeer)).st).logs ++
             (settle fac (runReads fac reads (connectionMade fac (initState hasAbort hasPeer)).st).st).logs,
           (settle fac (runReads fac reads (connectionMade fac (initState hasAbort hasPeer)).st).st).exc⟩

/-! ## Derived notions used to state the claims -/

/-- The messages one frame payload contributes on the success path of
`stringReceived` (none when `unserialize` raises). -/
def frameMsgs (u : Serializer) (p : List Byte) : List Msg :=
  match u.unserialize p with
  | .ok ms => ms
  | .error _ => []

/-- The concatenated messages of a list of frame payloads, in order. -/
def msgsOf (u : Serializer) : List (List Byte) → List Msg
  | [] => []
  | p :: ps => frameMsgs u p ++ msgsOf u ps

/-- The trace events of a message list. -/
def onMsgs (ms : List Msg) : List TEvent :=
  ms.map TEvent.onMessage

/-- Whether `unserialize` raises on this payload. -/
def unserFails (u : Serializer) (p : List Byte) : Bool :=
  match u.unserialize p with
  | .ok _ => false
  | .error _ => true

/-- Whether `unserialize` raises on some payload of the list. -/
def anyFail (u : Serializer) : List (List Byte) → Bool
  | [] => false
  | p :: ps => unserFails u p || anyFail u ps

/-- The bytes of a network read consisting of whole frames. -/
def readBytes (ps : List (List Byte)) : List Byte :=
  catl (ps.map frame)

/-- Concatenation of a list of reads, each a list of frame payloads. -/
def catf : List (List (List Byte)) → List (List Byte)
  | [] => []
  | x :: xs => x ++ catf xs

/-! ## Concrete environment instances used in witnesses and counterexamples -/

/-- A well-behaved application session: nothing raises. -/
def okSession : SessionB :=
  ⟨false, fun _ => false, fun _ => false⟩

/-- A simple serializer: a message `m` serializes to the single byte
`m % 256`; a payload unserializes to its list of bytes as messages. -/
def idSer : Serializer :=
  ⟨fun m => .ok ([m % 256], true), fun p => .ok p⟩

/-- A serializer whose decode raises `ProtocolError` exactly on the payload
`[0]` and otherwise behaves like `idSer`. -/
def c2Ser : Serializer :=
  ⟨fun m => .ok ([m % 256], true),
   fun p => if p = [0] then .error .protocolError else .ok p⟩

/-- A serializer whose encode always raises. -/
def failSer : Serializer :=
  ⟨fun _ => .error (.otherExc 1), fun p => .ok p⟩

/-- A session whose `onClose` always raises. -/
def badCloseSession : SessionB :=
  ⟨false, fun _ => false, fun _ => true⟩

/-! ## Frame codec lemmas -/

theorem extractGo_congr :
    ∀ (f1 f2 : Nat) (buf : List Byte), buf.length ≤ f1 → buf.length ≤ f2 →
      extractGo f1 buf = extractGo f2 buf := by
  intro f1
  induction f1 with
  | zero =>
      intro f2 buf h1 _
      have hb : buf = [] := List.length_eq_zero.mp (by omega)
      subst hb
      cases f2 with
      | zero => rfl
      | succ f2 => simp [extractGo]
  | succ f1 ih =>
      intro f2 buf h1 h2
      cases f2 with
      | zero =>
          have hb : buf = [] := List.length_eq_zero.mp (by omega)
          subst hb
          simp [extractGo]
      | succ f2 =>
          show extractGo (f1 + 1) buf = extractGo (f2 + 1) buf
          rw [extractGo, extractGo]
          by_cases h4 : 4 ≤ buf.length
          · by_cases hlen : buf.length < 4 + be32dec (buf.take 4)
            · rw [if_pos h4, if_pos hlen, if_pos h4, if_pos hlen]
            · rw [if_pos h4, if_neg hlen, if_pos h4, if_neg hlen]
              have hrec : (buf.drop (4 + be32dec (buf.take 4))).length ≤ f1 := by
                simp only [List.length_drop]; omega
              have hrec2 : (buf.drop (4 + be32dec (buf.take 4))).length ≤ f2 := by
                simp only [List.length_drop]; omega
              rw [ih f2 _ hrec hrec2]
          · rw [if_neg h4, if_neg h4]

/-- The defining equation of `extractFrames`, independent of the fuel. -/
theorem extractFrames_eq (buf : List Byte) :
    extractFrames buf =
      if 4 ≤ buf.length then
        if buf.length < 4 + be32dec (buf.take 4) then ([], buf)
        else
          ((buf.drop 4).take (be32dec (buf.take 4)) ::
             (extractFrames (buf.drop (4 + be32dec (buf.take 4)))).1,
           (extractFrames (buf.drop (4 + be32dec (buf.take 4)))).2)
      else ([], buf) := by
  show extractGo buf.length buf = _
  by_cases h4 : 4 ≤ buf.length
  · have hx : extractGo buf.length buf = extractGo ((buf.length - 1) + 1) buf := by
      rw [Nat.sub_add_cancel (by omega)]
    rw [hx, extractGo]
    by_cases hlen : buf.length < 4 + be32dec (buf.take 4)
    · rw [if_pos h4, if_pos hlen, if_pos h4, if_pos hlen]
    · rw [if_pos h4, if_neg hlen, if_pos h4, if_neg hlen]
      rw [extractGo_congr (buf.length - 1) (buf.drop (4 + be32dec (buf.take 4))).length
          (buf.drop (4 + be32dec (buf.take 4)))
          (by simp only [List.length_drop]; omega) (le_refl _)]
      rfl
  · have hx : extractGo buf.length buf = ([], buf) := by
      cases hby : buf.length with
      | zero => rfl
      | succ k => rw [extractGo, if_neg (by omega)]
    rw [hx, if_neg h4]

theorem extractFrames_of_noFrame (buf : List Byte) (h : noFrame buf) :
    extractFrames buf = ([], buf) := by
  rw [extractFrames_eq buf]
  by_cases h4 : 4 ≤ buf.length
  · rcases h with h | h
    · omega
    · rw [if_pos h4, if_pos h]
  · rw [if_neg h4]

theorem noFrame_extractFrames_snd (buf : List Byte) :
    noFrame (extractFrames buf).2 := by
  rw [extractFrames_eq buf]
  by_cases h4 : 4 ≤ buf.length
  · by_cases hlen : buf.length < 4 + be32dec (buf.take 4)
    · rw [if_pos h4, if_pos hlen]
      exact Or.inr hlen
    · rw [if_pos h4, if_neg hlen]
      exact noFrame_extractFrames_snd (buf.drop (4 + be32dec (buf.take 4)))
  · rw [if_neg h4]
    show noFrame buf
    exact Or.inl (by omega)
  termination_by buf.length
  decreasing_by
    simp only [List.length_drop]
    omega

theorem extractFrames_cons {b1 : List Byte} (h4 : 4 ≤ b1.length)
    (hlen : ¬ b1.length < 4 + be32dec (b1.take 4)) :
    extractFrames b1 =
      ((b1.drop 4).take (be32dec (b1.take 4)) ::
         (extractFrames (b1.drop (4 + be32dec (b1.take 4)))).1,
       (extractFrames (b1.drop (4 + be32dec (b1.take 4)))).2) := by
  rw [extractFrames_eq b1, if_pos h4, if_neg hlen]

/-- Incrementality of the extraction loop: feeding `b1` and then `b2` through
the buffer produces the same frames, in the same order, as feeding `b1 ++ b2`
at once.  This is the split/concatenation invariance of the frame codec. -/
theorem extractFrames_append (b1 b2 : List Byte) :
    extractFrames (b1 ++ b2) =
      ((extractFrames b1).1 ++ (extractFrames ((extractFrames b1).2 ++ b2)).1,
       (extractFrames ((extractFrames b1).2 ++ b2)).2) := by
  by_cases h4 : 4 ≤ b1.length
  · by_cases hlen : b1.length < 4 + be32dec (b1.take 4)
    · rw [extractFrames_of_noFrame b1 (Or.inr hlen)]
      simp
    · have hle : 4 + be32dec (b1.take 4) ≤ b1.length := by omega
      have htake : (b1 ++ b2).take 4 = b1.take 4 :=
        List.take_append_of_le_length h4
      have h42 : 4 ≤ (b1 ++ b2).length := by
        simp only [List.length_append]; omega
      have hlen2 : ¬ (b1 ++ b2).length < 4 + be32dec ((b1 ++ b2).take 4) := by
        rw [htake]; simp only [List.length_append]; omega
      rw [extractFrames_cons h42 hlen2, extractFrames_cons h4 hlen, htake]
      have hdrop4 : (b1 ++ b2).drop 4 = b1.drop 4 ++ b2 :=
        List.drop_append_of_le_length h4
      have hpk : ((b1 ++ b2).drop 4).take (be32dec (b1.take 4)) =
          (b1.drop 4).take (be32dec (b1.take 4)) := by
        rw [hdrop4]
        exact List.take_append_of_le_length (by simp only [List.length_drop]; omega)
      have hdropn : (b1 ++ b2).drop (4 + be32dec (b1.take 4)) =
          b1.drop (4 + be32dec (b1.take 4)) ++ b2 :=
        List.drop_append_of_le_length hle
      rw [hpk, hdropn,
        extractFrames_append (b1.drop (4 + be32dec (b1.take 4))) b2]
      simp
  · rw [extractFrames_of_noFrame b1 (Or.inl (by omega))]
    simp
  termination_by b1.length
  decreasing_by
    simp only [List.length_drop]
    omega

theorem be32_roundtrip {n : Nat} (h : n < 4294967296) :
    be32dec (be32enc n) = n := by
  simp only [be32enc, be32dec]
  omega

theorem be32enc_length (n : Nat) : (be32enc n).length = 4 := rfl

theorem be32enc_take (n : Nat) : (be32enc n).take 4 = be32enc n := rfl

theorem be32enc_drop (n : Nat) : (be32enc n).drop 4 = [] := rfl

/-- A concatenation of well-formed frames extracts exactly to the list of
payloads with an empty remainder. -/
theorem extractFrames_wire (ps : List (List Byte))
    (h : ∀ p ∈ ps, p.length < 4294967296) :
    extractFrames (catl (ps.map frame)) = (ps, []) := by
  induction ps with
  | nil =>
      show extractFrames [] = ([], [])
      rw [extractFrames_of_noFrame [] (Or.inl (by simp))]
  | cons p ps ih =>
      have hp : p.length < 4294967296 := h p (by simp)
      have hbuf : catl ((p :: ps).map frame) =
          be32enc p.length ++ (p ++ catl (ps.map frame)) := by
        show frame p ++ catl (ps.map frame) = _
        rw [frame, List.append_assoc]
      rw [hbuf]
      have htake : (be32enc p.length ++ (p ++ catl (ps.map frame))).take 4 =
          be32enc p.length := by
        rw [List.take_append_of_le_length (by rw [be32enc_length]), be32enc_take]
      have hlenbuf : (be32enc p.length ++ (p ++ catl (ps.map frame))).length =
          4 + (p.length + (catl (ps.map frame)).length) := by
        simp [be32enc_length, List.length_append]
      have h4 : 4 ≤ (be32enc p.length ++ (p ++ catl (ps.map frame))).length := by
        rw [hlenbuf]; omega
      have hlen : ¬ (be32enc p.length ++ (p ++ catl (ps.map frame))).length <
          4 + be32dec ((be32enc p.length ++ (p ++ catl (ps.map frame))).take 4) := by
        rw [htake, be32_roundtrip hp, hlenbuf]; omega
      rw [extractFrames_cons h4 hlen, htake, be32_roundtrip hp]
      have hdrop4 : (be32enc p.length ++ (p ++ catl (ps.map frame))).drop 4 =
          p ++ catl (ps.map frame) := by
        rw [List.drop_append_of_le_length (by rw [be32enc_length]), be32enc_drop,
          List.nil_append]
      have hpk : ((be32enc p.length ++ (p ++ catl (ps.map frame))).drop 4).take p.length
          = p := by
        rw [hdrop4, List.take_append_of_le_length (le_refl _), List.take_length]
      have hrest : (be32enc p.length ++ (p ++ catl (ps.map frame))).drop (4 + p.length)
          = catl (ps.map frame) := by
        rw [show be32enc p.length ++ (p ++ catl (ps.map frame)) =
            (be32enc p.length ++ p) ++ catl (ps.map frame) by rw [List.append_assoc]]
        rw [List.drop_append_of_le_length
            (by simp [be32enc_length, List.length_append])]
        simp [be32enc_length, List.length_append]
      rw [hpk, hrest, ih (fun q hq => h q (by simp [hq]))]

/-! ## Dispatch-layer lemmas -/

theorem msgsOf_append (u : Serializer) (a b : List (List Byte)) :
    msgsOf u (a ++ b) = msgsOf u a ++ msgsOf u b := by
  induction a with
  | nil => rfl
  | cons p ps ih => simp [msgsOf, ih]

theorem onMsgs_append (a b : List Msg) :
    onMsgs (a ++ b) = onMsgs a ++ onMsgs b := by
  simp [onMsgs]

theorem catl_append (a b : List (List Byte)) :
    catl (a ++ b) = catl a ++ catl b := by
  induction a with
  | nil => rfl
  | cons x xs ih => simp [catl, ih, List.append_assoc]

theorem abort_open (b : SessionB) (s : Proto) (hs : s.sessionAttr = some (some b))
    (ha : s.transport.hasAbortConnection = true) :
    abort s = ({ s with transport := abortConnection s.transport }, none) := by
  simp [abort, isOpen, hs, ha]

theorem abortConnection_idem (t : Transport) :
    abortConnection (abortConnection t) = abortConnection t := rfl

/-- Benign dispatch: with a bound session whose `onMessage` never raises, the
message loop forwards every message, in order, and raises nothing. -/
theorem dispatchMsgs_ok (fac : WampRawSocketFactory) (b : SessionB)
    (hb : ∀ m, b.onMessageRaises m = false) :
    ∀ (ms : List Msg) (s : Proto), s.sessionAttr = some (some b) →
      (dispatchMsgs fac ms s).st = { s with trace := s.trace ++ onMsgs ms } ∧
      (dispatchMsgs fac ms s).exc = none := by
  intro ms
  induction ms with
  | nil =>
      intro s _
      refine ⟨?_, rfl⟩
      show s = { s with trace := s.trace ++ onMsgs [] }
      simp [onMsgs]
  | cons m ms ih =>
      intro s hs
      obtain ⟨sa, pe, rc, tp, tc⟩ := s
      subst hs
      obtain ⟨ih1, ih2⟩ :=
        ih ⟨some (some b), pe, rc, tp, tc ++ [.onMessage m]⟩ rfl
      constructor
      · simp only [dispatchMsgs, hb m, Bool.false_eq_true, if_false]
        rw [ih1]
        simp [onMsgs, List.append_assoc]
      · simp only [dispatchMsgs, hb m, Bool.false_eq_true, if_false]
        rw [ih2]

/-- `stringReceived` on a payload that decodes, with a benign session: all
decoded messages are forwarded in order, nothing raises, nothing else
changes. -/
theorem stringReceived_ok (fac : WampRawSocketFactory) (b : SessionB)
    (hb : ∀ m, b.onMessageRaises m = false) (p : List Byte) (ms : List Msg)
    (hu : fac._serializer.unserialize p = .ok ms)
    (s : Proto) (hs : s.sessionAttr = some (some b)) :
    (stringReceived fac p s).st = { s with trace := s.trace ++ onMsgs ms } ∧
    (stringReceived fac p s).exc = none := by
  obtain ⟨h1, h2⟩ := dispatchMsgs_ok fac b hb ms s hs
  constructor <;> simp [stringReceived, hu, h1, h2]

/-- `stringReceived` on a payload whose decode raises, with a session bound
and a transport offering `abortConnection`: nothing is forwarded, the abort
is requested, the exception does not propagate. -/
theorem stringReceived_err (fac : WampRawSocketFactory) (b : SessionB)
    (p : List Byte) (e : PyExc) (hu : fac._serializer.unserialize p = .error e)
    (s : Proto) (hs : s.sessionAttr = some (some b))
    (ha : s.transport.hasAbortConnection = true) :
    (stringReceived fac p s).st = { s with transport := abortConnection s.transport } ∧
    (stringReceived fac p s).exc = none := by
  have h := abort_open b s hs ha
  constructor <;> simp [stringReceived, hu, h]

/-- The frame loop with a benign session: every frame is processed (the loop
keeps running even after an abort was requested, since `connectionLost` is
only delivered on a later reactor turn); each decodable frame forwards its
messages in order, each failing frame requests an abort. -/
theorem dispatchFrames_run (fac : WampRawSocketFactory) (b : SessionB)
    (hb : ∀ m, b.onMessageRaises m = false) :
    ∀ (fs : List (List Byte)) (s : Proto), s.sessionAttr = some (some b) →
      s.transport.hasAbortConnection = true →
      (dispatchFrames fac fs s).st =
        { s with trace := s.trace ++ onMsgs (msgsOf fac._serializer fs),
                 transport := if anyFail fac._serializer fs
                              then abortConnection s.transport
                              else s.transport } ∧
      (dispatchFrames fac fs s).exc = none := by
  intro fs
  induction fs with
  | nil =>
      intro s _ _
      refine ⟨?_, rfl⟩
      show s = _
      simp [msgsOf, onMsgs, anyFail]
  | cons p ps ih =>
      intro s hs ha
      obtain ⟨sa, pe, rc, tp, tc⟩ := s
      subst hs
      cases hu : fac._serializer.unserialize p with
      | ok ms =>
          obtain ⟨h1, h2⟩ :=
            stringReceived_ok fac b hb p ms hu ⟨some (some b), pe, rc, tp, tc⟩ rfl
          obtain ⟨ih1, ih2⟩ :=
            ih ⟨some (some b), pe, rc, tp, tc ++ onMsgs ms⟩ rfl ha
          have hfm : frameMsgs fac._serializer p = ms := by
            simp [frameMsgs, hu]
          have haf : anyFail fac._serializer (p :: ps) = anyFail fac._serializer ps := by
            simp [anyFail, unserFails, hu]
          constructor
          · simp only [dispatchFrames, h2, h1, ih1, haf]
            simp [msgsOf, hfm, onMsgs_append, List.append_assoc]
          · simp only [dispatchFrames, h2, h1, ih2]
      | error e =>
          obtain ⟨h1, h2⟩ :=
            stringReceived_err fac b p e hu ⟨some (some b), pe, rc, tp, tc⟩ rfl ha
          obtain ⟨ih1, ih2⟩ :=
            ih ⟨some (some b), pe, rc, abortConnection tp, tc⟩ rfl ha
          have hfm : frameMsgs fac._serializer p = [] := by
            simp [frameMsgs, hu]
          have haf : anyFail fac._serializer (p :: ps) = true := by
            simp [anyFail, unserFails, hu]
          constructor
          · simp only [dispatchFrames, h2, h1, ih1, haf]
            cases hps : anyFail fac._serializer ps <;>
              simp [msgsOf, hfm, abortConnection_idem, hps]
          · simp only [dispatchFrames, h2, h1, ih2]

/-- Once a teardown is pending, no further reads are delivered. -/
theorem runReads_stop (fac : WampRawSocketFactory) :
    ∀ (reads : List (List Byte)) (s : Proto), s.transport.pendingLoss.isSome →
      runReads fac reads s = ⟨s, [], none⟩ := by
  intro reads s h
  cases reads with
  | nil => rfl
  | cons d ds => simp [runReads, h]

/-- Success-path frame loop: with a benign session and every frame decoding,
all messages are forwarded in order and nothing else changes. -/
theorem dispatchFrames_ok (fac : WampRawSocketFactory) (b : SessionB)
    (hb : ∀ m, b.onMessageRaises m = false) :
    ∀ (fs : List (List Byte)) (s : Proto), s.sessionAttr = some (some b) →
      (∀ p ∈ fs, unserFails fac._serializer p = false) →
      (dispatchFrames fac fs s).st =
        { s with trace := s.trace ++ onMsgs (msgsOf fac._serializer fs) } ∧
      (dispatchFrames fac fs s).exc = none := by
  intro fs
  induction fs with
  | nil =>
      intro s _ _
      refine ⟨?_, rfl⟩
      show s = _
      simp [msgsOf, onMsgs]
  | cons p ps ih =>
      intro s hs hok
      obtain ⟨sa, pe, rc, tp, tc⟩ := s
      subst hs
      cases hu : fac._serializer.unserialize p with
      | error e =>
          exfalso
          have hx := hok p (by simp)
          simp [unserFails, hu] at hx
      | ok ms =>
          obtain ⟨h1, h2⟩ :=
            stringReceived_ok fac b hb p ms hu ⟨some (some b), pe, rc, tp, tc⟩ rfl
          obtain ⟨ih1, ih2⟩ := ih ⟨some (some b), pe, rc, tp, tc ++ onMsgs ms⟩ rfl
            (fun q hq => hok q (by simp [hq]))
          have hfm : frameMsgs fac._serializer p = ms := by
            simp [frameMsgs, hu]
          constructor
          · simp only [dispatchFrames, h2, h1, ih1]
            simp [msgsOf, hfm, onMsgs_append, List.append_assoc]
          · simp only [dispatchFrames, h2, h1, ih2]

/-- The read loop on the success path: however the well-formed byte stream is
split into reads, the frames are recovered and their messages forwarded in
order, the leftover stays buffered, and nothing is raised or torn down. -/
theorem runReads_success (fac : WampRawSocketFactory) (b : SessionB)
    (hb : ∀ m, b.onMessageRaises m = false) :
    ∀ (reads : List (List Byte)) (s : Proto),
      s.sessionAttr = some (some b) →
      s.transport.pendingLoss = none →
      extractFrames s.recvd = ([], s.recvd) →
      (∀ p ∈ (extractFrames (s.recvd ++ catl reads)).1,
        unserFails fac._serializer p = false) →
      (runReads fac reads s).st =
        { s with
          recvd := (extractFrames (s.recvd ++ catl reads)).2,
          trace := s.trace ++
            onMsgs (msgsOf fac._serializer (extractFrames (s.recvd ++ catl reads)).1) } ∧
      (runReads fac reads s).exc = none := by
  intro reads
  induction reads with
  | nil =>
      intro s _ _ hnf _
      constructor
      · show s = _
        rw [show s.recvd ++ catl [] = s.recvd from by simp [catl]]
        rw [hnf]
        simp [msgsOf, onMsgs]
      · rfl
  | cons d ds ih =>
      intro s hs hpl hnf hok
      obtain ⟨sa, pe, rc, tp, tc⟩ := s
      subst hs
      have hpl2 : tp.pendingLoss = none := hpl
      have hsplit : extractFrames (rc ++ catl (d :: ds)) =
          ((extractFrames (rc ++ d)).1 ++
             (extractFrames ((extractFrames (rc ++ d)).2 ++ catl ds)).1,
           (extractFrames ((extractFrames (rc ++ d)).2 ++ catl ds)).2) := by
        rw [show rc ++ catl (d :: ds) = (rc ++ d) ++ catl ds from by
          show rc ++ (d ++ catl ds) = _
          rw [List.append_assoc]]
        exact extractFrames_append (rc ++ d) (catl ds)
      have hok1 : ∀ p ∈ (extractFrames (rc ++ d)).1,
          unserFails fac._serializer p = false := by
        intro p hp
        apply hok
        rw [hsplit]
        exact List.mem_append_left _ hp
      obtain ⟨hd1, hd2⟩ := dispatchFrames_ok fac b hb (extractFrames (rc ++ d)).1
        ⟨some (some b), pe, (extractFrames (rc ++ d)).2, tp, tc⟩ rfl hok1
      obtain ⟨ih1, ih2⟩ := ih ⟨some (some b), pe, (extractFrames (rc ++ d)).2, tp,
          tc ++ onMsgs (msgsOf fac._serializer (extractFrames (rc ++ d)).1)⟩ rfl hpl
        (extractFrames_of_noFrame _ (noFrame_extractFrames_snd (rc ++ d)))
        (by
          intro p hp
          apply hok
          rw [hsplit]
          exact List.mem_append_right _ hp)
      constructor
      · simp only [runReads, hpl2, Option.isSome_none, Bool.false_eq_true, if_false,
          dataReceived, hd2, hd1, ih1, hsplit]
        simp [msgsOf_append, onMsgs_append, List.append_assoc]
      · simp only [runReads, hpl2, Option.isSome_none, Bool.false_eq_true, if_false,
          dataReceived, hd2, hd1, ih2]

/-! ## Glue lemmas for whole runs -/

theorem mem_catf {p : List Byte} :
    ∀ {gs : List (List (List Byte))}, p ∈ catf gs → ∃ ps ∈ gs, p ∈ ps := by
  intro gs
  induction gs with
  | nil => intro h; cases h
  | cons g gs ih =>
      intro h
      rcases List.mem_append.mp h with h | h
      · exact ⟨g, by simp, h⟩
      · obtain ⟨ps, h1, h2⟩ := ih h
        exact ⟨ps, by simp [h1], h2⟩

theorem readBytes_catf :
    ∀ (gs : List (List (List Byte))), catl (gs.map readBytes) = readBytes (catf gs) := by
  intro gs
  induction gs with
  | nil => rfl
  | cons g gs ih =>
      show readBytes g ++ catl (gs.map readBytes) = _
      rw [ih]
      show catl (g.map frame) ++ catl ((catf gs).map frame) = catl ((g ++ catf gs).map frame)
      rw [List.map_append, catl_append]

theorem anyFail_append (u : Serializer) (a c : List (List Byte)) :
    anyFail u (a ++ c) = (anyFail u a || anyFail u c) := by
  induction a with
  | nil => simp [anyFail]
  | cons p ps ih => simp [anyFail, ih, Bool.or_assoc]

/-- `connectionMade` when the session constructor succeeds and `onOpen` does
not raise: the session is bound, `onOpen` is the sole trace event, nothing is
raised, no teardown is requested. -/
theorem connectionMade_ok (fac : WampRawSocketFactory) (b : SessionB)
    (hf : fac._factory = .callable (.ok b)) (ho : b.onOpenRaises = false)
    (s0 : Proto) :
    connectionMade fac s0 =
      ⟨bindSession b (setPeer s0), dlog fac.debug .connMade, none⟩ := by
  simp [connectionMade, hf, ho]

/-- `connectionLost` with a session bound: `onClose` is invoked with
`wasClean = isinstance(reason.value, ConnectionDone)`, the session reference
is released, and no exception propagates. -/
theorem connectionLost_bound (fac : WampRawSocketFactory) (r : LossReason)
    (s : Proto) (b : SessionB) (hs : s.sessionAttr = some (some b)) :
    (connectionLost fac r s).st =
      { s with sessionAttr := some none,
               trace := s.trace ++ [.onClose (isConnectionDone r)] } ∧
    (connectionLost fac r s).exc = none := by
  constructor <;> simp [connectionLost, hs]

/-- `runReads` distributes over list append when the first part raises
nothing. -/
theorem runReads_append (fac : WampRawSocketFactory) (r2 : List (List Byte)) :
    ∀ (r1 : List (List Byte)) (s : Proto), (runReads fac r1 s).exc = none →
      (runReads fac (r1 ++ r2) s).st = (runReads fac r2 (runReads fac r1 s).st).st ∧
      (runReads fac (r1 ++ r2) s).exc = (runReads fac r2 (runReads fac r1 s).st).exc := by
  intro r1
  induction r1 with
  | nil => intro s _; exact ⟨rfl, rfl⟩
  | cons d ds ih =>
      intro s h
      by_cases hp : s.transport.pendingLoss.isSome
      · rw [runReads_stop fac (d :: ds ++ r2) s hp, runReads_stop fac (d :: ds) s hp]
        rw [runReads_stop fac r2 s hp]
        exact ⟨rfl, rfl⟩
      · simp only [Bool.not_eq_true] at hp
        cases he : (dataReceived fac d s).exc with
        | none =>
            have h2 : (runReads fac ds (dataReceived fac d s).st).exc = none := by
              simp only [runReads, hp, Bool.false_eq_true, if_false, he] at h
              exact h
            obtain ⟨ih1, ih2⟩ := ih (dataReceived fac d s).st h2
            constructor
            · show (runReads fac (d :: (ds ++ r2)) s).st = _
              simp only [runReads, hp, Bool.false_eq_true, if_false, he, ih1]
            · show (runReads fac (d :: (ds ++ r2)) s).exc = _
              simp only [runReads, hp, Bool.false_eq_true, if_false, he, ih2]
        | some e =>
            exfalso
            simp only [runReads, hp, Bool.false_eq_true, if_false, he] at h
            cases h

/-- `runReads_success` with the extraction result given as an equation. -/
theorem runReads_success2 (fac : WampRawSocketFactory) (b : SessionB)
    (hb : ∀ m, b.onMessageRaises m = false)
    (reads : List (List Byte)) (s : Proto)
    (hs : s.sessionAttr = some (some b))
    (hpl : s.transport.pendingLoss = none)
    (hnf : extractFrames s.recvd = ([], s.recvd))
    (fs : List (List Byte)) (lft : List Byte)
    (hef : extractFrames (s.recvd ++ catl reads) = (fs, lft))
    (hok : ∀ p ∈ fs, unserFails fac._serializer p = false) :
    (runReads fac reads s).st =
      { s with recvd := lft,
               trace := s.trace ++ onMsgs (msgsOf fac._serializer fs) } ∧
    (runReads fac reads s).exc = none := by
  have h := runReads_success fac b hb reads s hs hpl hnf
    (by rw [hef]; exact hok)
  rw [hef] at h
  exact h

/-! ## Claim theorems -/

/-- C1: for every payload delivered to `stringReceived`, the serializer's
`unserialize` yields an ordered sequence of zero or more message values and
each one is forwarded, in that order, to `Session.onMessage`, with no
duplication and no drops; this holds for every split or concatenation pattern
of the underlying byte stream.  Formally: for any sequence of reads whose
concatenation is a well-formed framing of `payloads`, each of which decodes
without raising, and a session whose callbacks do not raise, the complete run
ends with the trace `onOpen` followed by exactly the concatenation, in order,
of the message lists decoded from the payloads; nothing is raised and the
connection stays open. -/
theorem c1_inbound_delivery
    (u : Serializer) (b : SessionB) (dbg hasA hasP : Bool)
    (payloads : List (List Byte)) (reads : List (List Byte))
    (hopen : b.onOpenRaises = false)
    (hmsg : ∀ m, b.onMessageRaises m = false)
    (hlen : ∀ p ∈ payloads, p.length < 4294967296)
    (hwire : catl reads = catl (payloads.map frame))
    (hdec : ∀ p ∈ payloads, unserFails u p = false) :
    (runConn ⟨.callable (.ok b), u, dbg⟩ hasA hasP reads).st.trace =
      .onOpen :: onMsgs (msgsOf u payloads) ∧
    (runConn ⟨.callable (.ok b), u, dbg⟩ hasA hasP reads).exc = none ∧
    (runConn ⟨.callable (.ok b), u, dbg⟩ hasA hasP reads).st.sessionAttr =
      some (some b) := by
  have hcm := connectionMade_ok ⟨.callable (.ok b), u, dbg⟩ b rfl hopen
    (initState hasA hasP)
  have hef : extractFrames
      ((bindSession b (setPeer (initState hasA hasP))).recvd ++ catl reads) =
      (payloads, []) := by
    show extractFrames (([] : List Byte) ++ catl reads) = _
    rw [List.nil_append, hwire]
    exact extractFrames_wire payloads hlen
  obtain ⟨hr1, hr2⟩ := runReads_success2 ⟨.callable (.ok b), u, dbg⟩ b hmsg reads
    (bindSession b (setPeer (initState hasA hasP))) rfl rfl rfl payloads [] hef hdec
  refine ⟨?_, ?_, ?_⟩ <;>
  · simp only [runConn, hcm, hr1, hr2]
    simp [settle, bindSession, setPeer, initState, onMsgs, msgsOf]

/-- Witness for `c1_inbound_delivery`: three messages in two frames
(payloads `[1, 2]` and `[3]`), the ten wire bytes split into reads of 3, 1
and 6 bytes (cutting both length prefixes and a payload), decoded with the
byte-identity serializer. -/
theorem c1_inbound_delivery_witness :
    (runConn ⟨.callable (.ok okSession), idSer, false⟩ true true
      [[0, 0, 0], [2], [1, 2, 0, 0, 0, 1], [3]]).st.trace =
      .onOpen :: onMsgs (msgsOf idSer [[1, 2], [3]]) := by
  have h := c1_inbound_delivery idSer okSession false true true
    [[1, 2], [3]] [[0, 0, 0], [2], [1, 2, 0, 0, 0, 1], [3]]
    rfl (fun _ => rfl) (by decide) (by decide) (fun p hp => by
      fin_cases hp <;> rfl)
  exact h.1

/-- A read made of whole frames at least one of which fails to decode, from
an open state with an empty buffer, on a transport with `abortConnection`:
every frame of the read is still processed (messages of decodable frames are
forwarded), the abort is requested, and all later reads are ignored. -/
theorem runReads_badRead (fac : WampRawSocketFactory) (b : SessionB)
    (hb : ∀ m, b.onMessageRaises m = false)
    (bad : List (List Byte)) (rest : List (List Byte)) (s : Proto)
    (hs : s.sessionAttr = some (some b))
    (hpl : s.transport.pendingLoss = none)
    (hrecvd : s.recvd = [])
    (hA : s.transport.hasAbortConnection = true)
    (hblen : ∀ p ∈ bad, p.length < 4294967296)
    (hbfail : anyFail fac._serializer bad = true) :
    (runReads fac (readBytes bad :: rest) s).st =
      { s with recvd := [],
               trace := s.trace ++ onMsgs (msgsOf fac._serializer bad),
               transport := abortConnection s.transport } ∧
    (runReads fac (readBytes bad :: rest) s).exc = none := by
  obtain ⟨sa, pe, rc, tp, tc⟩ := s
  subst hs
  subst hrecvd
  have hpl2 : tp.pendingLoss = none := hpl
  have hA2 : tp.hasAbortConnection = true := hA
  have hef : extractFrames (([] : List Byte) ++ readBytes bad) = (bad, []) := by
    rw [List.nil_append]
    exact extractFrames_wire bad hblen
  obtain ⟨hd1, hd2⟩ := dispatchFrames_run fac b hb bad
    ⟨some (some b), pe, [], tp, tc⟩ rfl hA2
  rw [hbfail, if_pos rfl] at hd1
  constructor
  · simp only [runReads, hpl2, Option.isSome_none, Bool.false_eq_true, if_false,
      dataReceived, hef, hd2, hd1]
    rw [runReads_stop fac rest _ (by simp [abortConnection])]
  · simp only [runReads, hpl2, Option.isSome_none, Bool.false_eq_true, if_false,
      dataReceived, hef, hd2, hd1]
    rw [runReads_stop fac rest _ (by simp [abortConnection])]

/-- C2 counterexample: two frames arrive in a single read; the first frame's
payload `[0]` makes `unserialize` raise `ProtocolError`, yet the message `7`
of the second frame is still forwarded to `Session.onMessage` afterwards —
`stringReceived` aborts, but `abortConnection` only schedules the teardown
for a later reactor turn, and the `Int32StringReceiver` loop keeps
dispatching the frames already buffered in this read.  This contradicts the
claim that no message after the failure point is forwarded. -/
theorem c2_counterexample :
    c2Ser.unserialize [0] = .error .protocolError ∧
    (runConn ⟨.callable (.ok okSession), c2Ser, false⟩ true true
      [[0, 0, 0, 1, 0] ++ [0, 0, 0, 1, 7]]).st.trace =
      [.onOpen, .onMessage 7, .onClose false] := by
  exact ⟨rfl, by decide⟩

/-- C2 (amended): if decoding fails on some frame, all messages already
forwarded remain forwarded, frames buffered in the same read after the
failing one are still processed (their messages are forwarded if they
decode), no frame from any later read is dispatched, the connection is
aborted, and `Session.onClose` runs with `wasClean = false`.  Formally: for
frame-aligned reads `good` (all decoding) followed by a read `bad`
containing a failing frame followed by arbitrary further reads, the run ends
with trace `onOpen`, then the messages of `good`, then the messages of the
decodable frames of the whole read `bad`, then `onClose false`; the abort is
requested and the session reference released. -/
theorem c2_failure_policy
    (u : Serializer) (b : SessionB) (dbg hasP : Bool)
    (good : List (List (List Byte))) (bad : List (List Byte))
    (rest : List (List Byte))
    (hopen : b.onOpenRaises = false)
    (hmsg : ∀ m, b.onMessageRaises m = false)
    (hglen : ∀ ps ∈ good, ∀ p ∈ ps, p.length < 4294967296)
    (hgok : ∀ ps ∈ good, ∀ p ∈ ps, unserFails u p = false)
    (hblen : ∀ p ∈ bad, p.length < 4294967296)
    (hbfail : anyFail u bad = true) :
    (runConn ⟨.callable (.ok b), u, dbg⟩ true hasP
        (good.map readBytes ++ readBytes bad :: rest)).st.trace =
      .onOpen :: (onMsgs (msgsOf u (catf good)) ++ onMsgs (msgsOf u bad)
        ++ [.onClose false]) ∧
    (runConn ⟨.callable (.ok b), u, dbg⟩ true hasP
        (good.map readBytes ++ readBytes bad :: rest)).exc = none ∧
    (runConn ⟨.callable (.ok b), u, dbg⟩ true hasP
        (good.map readBytes ++ readBytes bad :: rest)).st.sessionAttr =
      some none ∧
    (runConn ⟨.callable (.ok b), u, dbg⟩ true hasP
        (good.map readBytes ++ readBytes bad :: rest)).st.transport.pendingLoss =
      some .connectionAborted := by
  have hcm := connectionMade_ok ⟨.callable (.ok b), u, dbg⟩ b rfl hopen
    (initState true hasP)
  have hefg : extractFrames
      ((bindSession b (setPeer (initState true hasP))).recvd ++
        catl (good.map readBytes)) = (catf good, []) := by
    show extractFrames (([] : List Byte) ++ catl (good.map readBytes)) = _
    rw [List.nil_append, readBytes_catf]
    exact extractFrames_wire (catf good) (by
      intro p hp
      obtain ⟨ps, h1, h2⟩ := mem_catf hp
      exact hglen ps h1 p h2)
  obtain ⟨hA1, hA2⟩ := runReads_success2 ⟨.callable (.ok b), u, dbg⟩ b hmsg
    (good.map readBytes) (bindSession b (setPeer (initState true hasP)))
    rfl rfl rfl (catf good) [] hefg
    (by
      intro p hp
      obtain ⟨ps, h1, h2⟩ := mem_catf hp
      exact hgok ps h1 p h2)
  obtain ⟨hap1, hap2⟩ := runReads_append ⟨.callable (.ok b), u, dbg⟩
    (readBytes bad :: rest) (good.map readBytes)
    (bindSession b (setPeer (initState true hasP))) hA2
  obtain ⟨hbr1, hbr2⟩ := runReads_badRead ⟨.callable (.ok b), u, dbg⟩ b hmsg
    bad rest
    { bindSession b (setPeer (initState true hasP)) with
      recvd := ([] : List Byte),
      trace := (bindSession b (setPeer (initState true hasP))).trace ++
        onMsgs (msgsOf u (catf good)) }
    rfl rfl rfl rfl hblen hbfail
  rw [hA1] at hap1 hap2
  refine ⟨?_, ?_, ?_, ?_⟩ <;>
  · simp only [runConn, hcm, hap1, hap2, hbr1, hbr2]
    simp [settle, abortConnection, connectionLost, bindSession, setPeer,
      initState, isConnectionDone, List.append_assoc]

/-- Witness for `c2_failure_policy`: one good read with frame `[1]`, then a
read with frames `[0]` (decode fails under `c2Ser`) and `[2]` (decodes), then
a junk read `[9, 9]` that is never delivered. -/
theorem c2_failure_policy_witness :
    (runConn ⟨.callable (.ok okSession), c2Ser, false⟩ true true
        ([[[1]]].map readBytes ++ readBytes [[0], [2]] :: [[9, 9]])).st.trace =
      .onOpen :: (onMsgs (msgsOf c2Ser (catf [[[1]]])) ++ onMsgs (msgsOf c2Ser [[0], [2]])
        ++ [.onClose false]) :=
  (c2_failure_policy c2Ser okSession false true [[[1]]] [[0], [2]] [[9, 9]]
    rfl (fun _ => rfl) (by decide) (by decide) (by decide) (by decide)).1

/-- C3: `send(msg)` raises `TransportLost` whenever the transport is not in
the Open state; when it is Open and the serializer's `serialize` raises,
`send` raises `SerializationError` synchronously to the caller, the state is
completely unchanged (in particular no bytes are written and no teardown is
requested), and the transport is still Open afterwards. -/
theorem c3_send_errors (fac : WampRawSocketFactory) (m : Msg) (s : Proto) :
    (isOpen s = .ok false → send fac m s = ⟨s, [], some .transportLost⟩) ∧
    (isOpen s = .ok true → ∀ e, fac._serializer.serialize m = .error e →
      (send fac m s).st = s ∧
      (send fac m s).exc = some .serializationError ∧
      isOpen (send fac m s).st = .ok true ∧
      (send fac m s).st.transport = s.transport) := by
  constructor
  · intro h
    simp [send, h]
  · intro h e he
    refine ⟨?_, ?_, ?_, ?_⟩ <;> simp [send, h, he]

/-- Witness for `c3_send_errors`: sending after `connectionLost` raises
`TransportLost`; sending on an open connection whose serializer always fails
raises `SerializationError` and leaves the state untouched. -/
theorem c3_send_errors_witness :
    (send ⟨.callable (.ok okSession), failSer, false⟩ 5
        (connectionLost ⟨.callable (.ok okSession), failSer, false⟩ .connectionDone
          (connectionMade ⟨.callable (.ok okSession), failSer, false⟩
            (initState true true)).st).st).exc = some .transportLost ∧
    (send ⟨.callable (.ok okSession), failSer, false⟩ 5
        (connectionMade ⟨.callable (.ok okSession), failSer, false⟩
          (initState true true)).st).exc = some .serializationError := by
  constructor
  · have h := (c3_send_errors ⟨.callable (.ok okSession), failSer, false⟩ 5
      (connectionLost ⟨.callable (.ok okSession), failSer, false⟩ .connectionDone
        (connectionMade ⟨.callable (.ok okSession), failSer, false⟩
          (initState true true)).st).st).1 rfl
    rw [h]
  · exact ((c3_send_errors ⟨.callable (.ok okSession), failSer, false⟩ 5
      (connectionMade ⟨.callable (.ok okSession), failSer, false⟩
        (initState true true)).st).2 rfl (.otherExc 1) rfl).2.1

/-- C4 counterexample: immediately after `close()` has been called (before
the connection-loss event is delivered), `isOpen()` still returns true and a
second `close()` does not raise `TransportLost` — it just calls
`loseConnection()` again — contradicting the claim that every call after
`close()` fails and that `isOpen()` returns false. -/
theorem c4_counterexample :
    isOpen (close (connectionMade ⟨.callable (.ok okSession), idSer, false⟩
      (initState true true)).st).1 = .ok true ∧
    (close (close (connectionMade ⟨.callable (.ok okSession), idSer, false⟩
      (initState true true)).st).1).2 = none := by
  exact ⟨rfl, by decide⟩

/-- C4 (amended): the Closed state reached when `connectionLost` is delivered
(which follows `close()`, `abort()` or any connection loss) is terminal and
idempotent: after it, `isOpen()` returns false and every `send`/`close`/
`abort` call raises `TransportLost` while leaving the state unchanged.
Between a `close()`/`abort()` call and the delivery of the loss event the
transport still reports open (see the counterexample). -/
theorem c4_closed_terminal (fac : WampRawSocketFactory) (r : LossReason)
    (s : Proto) (m : Msg) :
    isOpen (connectionLost fac r s).st = .ok false ∧
    send fac m (connectionLost fac r s).st =
      ⟨(connectionLost fac r s).st, [], some .transportLost⟩ ∧
    close (connectionLost fac r s).st =
      ((connectionLost fac r s).st, some .transportLost) ∧
    abort (connectionLost fac r s).st =
      ((connectionLost fac r s).st, some .transportLost) := by
  have hattr : (connectionLost fac r s).st.sessionAttr = some none := by
    cases hsa : s.sessionAttr with
    | none => simp [connectionLost, hsa]
    | some v => cases v <;> simp [connectionLost, hsa]
  have hopen : isOpen (connectionLost fac r s).st = .ok false := by
    simp [isOpen, hattr]
  exact ⟨hopen, by simp [send, hopen], by simp [close, hopen],
    by simp [abort, hopen]⟩

/-- C5: the claim is right about the intent — the `try` block around session
construction and `onOpen`, with `self.abort()` in its handler, is meant to
abort on either failure — but the code slips on the constructor path: when
`self.factory._factory()` raises, `self._session` was never assigned, so the
`self.abort()` call in the handler hits `self.isOpen()` reading
`self._session` and raises `AttributeError`; the exception escapes
`connectionMade` and the connection is never aborted (conjuncts 1–3).  On
the `onOpen` path the code matches the claim: the connection is aborted with
a non-clean close and no `onMessage` ever runs, even when a frame arrives
(conjuncts 4–5). -/
theorem c5_ctor_failure_behavior :
    (runConn ⟨.callable (.error (.otherExc 0)), idSer, false⟩ true true []).exc =
      some .attributeError ∧
    (runConn ⟨.callable (.error (.otherExc 0)), idSer, false⟩ true true
      []).st.transport.pendingLoss = none ∧
    (runConn ⟨.callable (.error (.otherExc 0)), idSer, false⟩ true true
      []).st.trace = [] ∧
    (runConn ⟨.callable (.ok ⟨true, fun _ => false, fun _ => false⟩), idSer, false⟩
      true true [[0, 0, 0, 1, 7]]).st.trace = [.onOpen, .onClose false] ∧
    (runConn ⟨.callable (.ok ⟨true, fun _ => false, fun _ => false⟩), idSer, false⟩
      true true [[0, 0, 0, 1, 7]]).st.transport.pendingLoss =
      some .connectionAborted := by
  exact ⟨rfl, rfl, rfl, by decide, rfl⟩

/-- C6: any exception raised inside `Session.onClose` during `connectionLost`
is caught and discarded: `connectionLost` never propagates an exception, the
session reference is released (`self._session = None`) in every case, and
with the debug flag off nothing is even logged. -/
theorem c6_onClose_swallowed (fac : WampRawSocketFactory) (r : LossReason)
    (s : Proto) :
    (connectionLost fac r s).exc = none ∧
    (connectionLost fac r s).st.sessionAttr = some none ∧
    (fac.debug = false → (connectionLost fac r s).logs = []) := by
  refine ⟨?_, ?_, ?_⟩
  · cases hsa : s.sessionAttr with
    | none => simp [connectionLost, hsa]
    | some v => cases v <;> simp [connectionLost, hsa]
  · cases hsa : s.sessionAttr with
    | none => simp [connectionLost, hsa]
    | some v => cases v <;> simp [connectionLost, hsa]
  · intro hd
    cases hsa : s.sessionAttr with
    | none => simp [connectionLost, hsa, dlog, hd]
    | some v => cases v <;> simp [connectionLost, hsa, dlog, hd]

/-- Witness for `c6_onClose_swallowed`: a session whose `onClose` always
raises, torn down by an abrupt loss, with debug off. -/
theorem c6_onClose_swallowed_witness :
    (connectionLost ⟨.callable (.ok badCloseSession), idSer, false⟩ (.other 3)
      (connectionMade ⟨.callable (.ok badCloseSession), idSer, false⟩
        (initState true true)).st).exc = none ∧
    (connectionLost ⟨.callable (.ok badCloseSession), idSer, false⟩ (.other 3)
      (connectionMade ⟨.callable (.ok badCloseSession), idSer, false⟩
        (initState true true)).st).logs = [] :=
  ⟨(c6_onClose_swallowed ⟨.callable (.ok badCloseSession), idSer, false⟩
      (.other 3) _).1,
   (c6_onClose_swallowed ⟨.callable (.ok badCloseSession), idSer, false⟩
      (.other 3) _).2.2 rfl⟩

theorem be32_roundtrip2 (a b c d : Nat) (ha : a < 256) (hb : b < 256)
    (hc : c < 256) (hd : d < 256) :
    be32enc (be32dec [a, b, c, d]) = [a, b, c, d] := by
  show [(((a * 256 + b) * 256 + c) * 256 + d) / 16777216 % 256,
        (((a * 256 + b) * 256 + c) * 256 + d) / 65536 % 256,
        (((a * 256 + b) * 256 + c) * 256 + d) / 256 % 256,
        (((a * 256 + b) * 256 + c) * 256 + d) % 256] = [a, b, c, d]
  have e1 : (((a * 256 + b) * 256 + c) * 256 + d) / 16777216 % 256 = a := by omega
  have e2 : (((a * 256 + b) * 256 + c) * 256 + d) / 65536 % 256 = b := by omega
  have e3 : (((a * 256 + b) * 256 + c) * 256 + d) / 256 % 256 = c := by omega
  have e4 : (((a * 256 + b) * 256 + c) * 256 + d) % 256 = d := by omega
  rw [e1, e2, e3, e4]

theorem exists_four {buf : List Byte} (h4 : 4 ≤ buf.length) :
    ∃ a b c d rest, buf = a :: b :: c :: d :: rest := by
  cases buf with
  | nil => simp at h4
  | cons a t1 =>
    cases t1 with
    | nil => simp at h4
    | cons b t2 =>
      cases t2 with
      | nil => simp at h4
      | cons c t3 =>
        cases t3 with
        | nil => simp at h4
        | cons d rest => exact ⟨a, b, c, d, rest, rfl⟩

/-- Soundness of frame extraction on well-formed bytes: the buffer is exactly
the frames extracted, re-encoded in order, followed by the retained
remainder. -/
theorem extractFrames_decomp (buf : List Byte) (hbyte : ∀ x ∈ buf, x < 256) :
    buf = catl ((extractFrames buf).1.map frame) ++ (extractFrames buf).2 := by
  by_cases h4 : 4 ≤ buf.length
  · by_cases hlen : buf.length < 4 + be32dec (buf.take 4)
    · rw [extractFrames_of_noFrame buf (Or.inr hlen)]
      simp [catl]
    · have hrec := extractFrames_decomp (buf.drop (4 + be32dec (buf.take 4)))
        (fun x hx => hbyte x (List.mem_of_mem_drop hx))
      rw [extractFrames_cons h4 hlen]
      obtain ⟨a, b, c, d, rest, hbuf⟩ := exists_four h4
      subst hbuf
      simp only [List.map_cons, catl, List.append_assoc]
      rw [← hrec]
      have htk : (a :: b :: c :: d :: rest).take 4 = [a, b, c, d] := rfl
      rw [htk] at hlen
      rw [htk]
      have ha : a < 256 := hbyte a (by simp)
      have hb : b < 256 := hbyte b (by simp)
      have hc : c < 256 := hbyte c (by simp)
      have hd : d < 256 := hbyte d (by simp)
      have hnle : be32dec [a, b, c, d] ≤ rest.length := by
        simp only [List.length_cons] at hlen
        omega
      have hdp : (a :: b :: c :: d :: rest).drop 4 = rest := rfl
      rw [hdp]
      have hpl : (rest.take (be32dec [a, b, c, d])).length = be32dec [a, b, c, d] := by
        rw [List.length_take]
        omega
      rw [frame, hpl, be32_roundtrip2 a b c d ha hb hc hd]
      have hdd : (a :: b :: c :: d :: rest).drop (4 + be32dec [a, b, c, d]) =
          rest.drop (be32dec [a, b, c, d]) := by
        rw [← List.drop_drop, hdp]
      rw [hdd]
      simp [List.take_append_drop]
  · rw [extractFrames_of_noFrame buf (Or.inl (by omega))]
    simp [catl]
  termination_by buf.length
  decreasing_by
    simp only [List.length_drop, List.length_cons]
    omega

theorem abort_recvd (s : Proto) : (abort s).1.recvd = s.recvd := by
  cases h : isOpen s with
  | error e => simp [abort, h]
  | ok v =>
      cases v with
      | false => simp [abort, h]
      | true =>
          by_cases hc : s.transport.hasAbortConnection <;> simp [abort, h, hc]

theorem dispatchMsgs_recvd (fac : WampRawSocketFactory) :
    ∀ (ms : List Msg) (s : Proto), (dispatchMsgs fac ms s).st.recvd = s.recvd := by
  intro ms
  induction ms with
  | nil => intro s; rfl
  | cons m ms ih =>
      intro s
      cases hsa : s.sessionAttr with
      | none => simp [dispatchMsgs, hsa]
      | some v =>
          cases v with
          | none => simp [dispatchMsgs, hsa]
          | some b =>
              by_cases hr : b.onMessageRaises m <;> simp [dispatchMsgs, hsa, hr, ih]

theorem stringReceived_recvd (fac : WampRawSocketFactory) (p : List Byte)
    (s : Proto) : (stringReceived fac p s).st.recvd = s.recvd := by
  cases hu : fac._serializer.unserialize p with
  | error e => simp [stringReceived, hu, abort_recvd]
  | ok ms =>
      cases he : (dispatchMsgs fac ms s).exc with
      | none => simp [stringReceived, hu, he, dispatchMsgs_recvd]
      | some e => simp [stringReceived, hu, he, abort_recvd, dispatchMsgs_recvd]

theorem dispatchFrames_recvd (fac : WampRawSocketFactory) :
    ∀ (fs : List (List Byte)) (s : Proto),
      (dispatchFrames fac fs s).st.recvd = s.recvd := by
  intro fs
  induction fs with
  | nil => intro s; rfl
  | cons p ps ih =>
      intro s
      cases he : (stringReceived fac p s).exc with
      | none => simp [dispatchFrames, he, ih, stringReceived_recvd]
      | some e => simp [dispatchFrames, he, stringReceived_recvd]

/-- C7: every frame on the wire is a 4-byte big-endian unsigned length `N`
followed by exactly `N` payload bytes — on well-formed bytes the receive
buffer is exactly the re-framed extracted payloads followed by the retained
remainder (conjunct 1), and the remainder never holds a complete frame, so a
payload is dispatched only once fully received (conjunct 2); partial frames
stay buffered across reads (conjunct 3); multiple frames arriving in a
single read are each dispatched, in input byte order (conjunct 4). -/
theorem c7_wire_format :
    (∀ buf : List Byte, (∀ x ∈ buf, x < 256) →
      buf = catl ((extractFrames buf).1.map frame) ++ (extractFrames buf).2) ∧
    (∀ buf : List Byte, noFrame (extractFrames buf).2) ∧
    (∀ (fac : WampRawSocketFactory) (data : List Byte) (s : Proto),
      (dataReceived fac data s).st.recvd = (extractFrames (s.recvd ++ data)).2) ∧
    (∀ (c : SessionCtor) (u : Serializer) (dbg : Bool) (b : SessionB)
      (data : List Byte) (s : Proto),
      s.sessionAttr = some (some b) → (∀ m, b.onMessageRaises m = false) →
      (∀ p ∈ (extractFrames (s.recvd ++ data)).1, unserFails u p = false) →
      (dataReceived ⟨c, u, dbg⟩ data s).st.trace =
        s.trace ++ onMsgs (msgsOf u (extractFrames (s.recvd ++ data)).1)) := by
  refine ⟨extractFrames_decomp, noFrame_extractFrames_snd, ?_, ?_⟩
  · intro fac data s
    simp [dataReceived, dispatchFrames_recvd]
  · intro c u dbg b data s hs hb hok
    obtain ⟨h1, h2⟩ := dispatchFrames_ok ⟨c, u, dbg⟩ b hb
      (extractFrames (s.recvd ++ data)).1
      { s with recvd := (extractFrames (s.recvd ++ data)).2 } hs hok
    simp [dataReceived, h1]

/-- Witness for `c7_wire_format`: a buffer holding one complete 2-byte frame
followed by a partial length prefix, and a read of two complete frames
dispatched in order on a fresh connection. -/
theorem c7_wire_format_witness :
    ([0, 0, 0, 2, 10, 11, 0, 0] : List Byte) =
      catl ((extractFrames [0, 0, 0, 2, 10, 11, 0, 0]).1.map frame) ++
        (extractFrames [0, 0, 0, 2, 10, 11, 0, 0]).2 ∧
    (dataReceived ⟨.callable (.ok okSession), idSer, false⟩
        [0, 0, 0, 1, 120, 0, 0, 0, 1, 121]
        (connectionMade ⟨.callable (.ok okSession), idSer, false⟩
          (initState true true)).st).st.trace =
      (connectionMade ⟨.callable (.ok okSession), idSer, false⟩
        (initState true true)).st.trace ++
        onMsgs (msgsOf idSer (extractFrames
          ((connectionMade ⟨.callable (.ok okSession), idSer, false⟩
            (initState true true)).st.recvd ++
            [0, 0, 0, 1, 120, 0, 0, 0, 1, 121])).1) :=
  ⟨c7_wire_format.1 [0, 0, 0, 2, 10, 11, 0, 0] (by decide),
   c7_wire_format.2.2.2 (.callable (.ok okSession)) idSer false okSession
     [0, 0, 0, 1, 120, 0, 0, 0, 1, 121]
     (connectionMade ⟨.callable (.ok okSession), idSer, false⟩
       (initState true true)).st rfl (fun _ => rfl) (by decide)⟩

/-- C9 counterexample: a callable whose zero-argument invocation raises
`TypeError` (a session constructor with a mandatory parameter) is accepted
by `WampRawSocketFactory.__init__` — `assert(callable(factory))` checks only
callability, not zero-argument invocability — and the failure surfaces
per-connection inside `connectionMade` (where, because of the C5 slip, it
even escapes as `AttributeError`).  This contradicts the claim that such a
constructor is rejected at factory construction time. -/
theorem c9_counterexample :
    (factoryInit (.callable (.error .typeError)) idSer false).toOption.isSome
      = true ∧
    (connectionMade ⟨.callable (.error .typeError), idSer, false⟩
      (initState true true)).exc = some .attributeError := ⟨rfl, rfl⟩

/-- C9 (amended): the factory constructor checks only `callable(...)`: it
raises `AssertionError` exactly when the argument is not callable.  A
callable that cannot be invoked with zero arguments is accepted at
construction time; its failure occurs per-connection instead. -/
theorem c9_factory_assert (f : SessionCtor) (ser : Serializer) (dbg : Bool) :
    ((factoryInit f ser dbg).toOption.isSome = callableB f) ∧
    (∀ e, (factoryInit (.callable (.error e)) ser dbg).toOption.isSome = true) := by
  constructor
  · cases f with
    | notCallable => rfl
    | callable r => rfl
  · intro e
    rfl

/-- C10: the `wasClean` value passed to `Session.onClose` in
`connectionLost` is true exactly when the loss reason's wrapped value is
`ConnectionDone`; every other reason — abort, abrupt reset, any other
exception — yields `wasClean = false`. -/
theorem c10_wasClean (fac : WampRawSocketFactory) (r : LossReason) (s : Proto)
    (b : SessionB) (hs : s.sessionAttr = some (some b)) :
    (connectionLost fac r s).st.trace =
      s.trace ++ [.onClose (isConnectionDone r)] ∧
    (isConnectionDone r = true ↔ r = .connectionDone) := by
  constructor
  · simp [connectionLost, hs]
  · cases r <;> simp [isConnectionDone]

/-- Witness for `c10_wasClean`: a graceful close yields `onClose true`, an
abrupt loss yields `onClose false`, on a freshly opened connection. -/
theorem c10_wasClean_witness :
    (connectionLost ⟨.callable (.ok okSession), idSer, false⟩ .connectionDone
      (connectionMade ⟨.callable (.ok okSession), idSer, false⟩
        (initState true true)).st).st.trace =
      (connectionMade ⟨.callable (.ok okSession), idSer, false⟩
        (initState true true)).st.trace ++ [.onClose true] ∧
    (connectionLost ⟨.callable (.ok okSession), idSer, false⟩ (.other 0)
      (connectionMade ⟨.callable (.ok okSession), idSer, false⟩
        (initState true true)).st).st.trace =
      (connectionMade ⟨.callable (.ok okSession), idSer, false⟩
        (initState true true)).st.trace ++ [.onClose false] :=
  ⟨(c10_wasClean ⟨.callable (.ok okSession), idSer, false⟩ .connectionDone
      (connectionMade ⟨.callable (.ok okSession), idSer, false⟩
        (initState true true)).st okSession rfl).1,
   (c10_wasClean ⟨.callable (.ok okSession), idSer, false⟩ (.other 0)
      (connectionMade ⟨.callable (.ok okSession), idSer, false⟩
        (initState true true)).st okSession rfl).1⟩

/-! ## Debug-flag noninterference: the flag gates only `log.msg` lines, so
the state and the raised exceptions of every operation agree for any two
values of the flag. -/

theorem send_dbg (c : SessionCtor) (u : Serializer) (d1 d2 : Bool) (m : Msg)
    (s : Proto) :
    (send ⟨c, u, d1⟩ m s).st = (send ⟨c, u, d2⟩ m s).st ∧
    (send ⟨c, u, d1⟩ m s).exc = (send ⟨c, u, d2⟩ m s).exc := by
  cases h : isOpen s with
  | error e => constructor <;> simp [send, h]
  | ok v =>
      cases v with
      | false => constructor <;> simp [send, h]
      | true =>
          cases hs : u.serialize m with
          | error e => constructor <;> simp [send, h, hs]
          | ok pr =>
              obtain ⟨pl, hint⟩ := pr
              constructor <;> simp [send, h, hs]

theorem dispatchMsgs_dbg (c : SessionCtor) (u : Serializer) (d1 d2 : Bool) :
    ∀ (ms : List Msg) (s : Proto),
      (dispatchMsgs ⟨c, u, d1⟩ ms s).st = (dispatchMsgs ⟨c, u, d2⟩ ms s).st ∧
      (dispatchMsgs ⟨c, u, d1⟩ ms s).exc = (dispatchMsgs ⟨c, u, d2⟩ ms s).exc := by
  intro ms
  induction ms with
  | nil => intro s; exact ⟨rfl, rfl⟩
  | cons m ms ih =>
      intro s
      cases hsa : s.sessionAttr with
      | none => constructor <;> simp [dispatchMsgs, hsa]
      | some v =>
          cases v with
          | none => constructor <;> simp [dispatchMsgs, hsa]
          | some b =>
              by_cases hr : b.onMessageRaises m
              · constructor <;> simp [dispatchMsgs, hsa, hr]
              · obtain ⟨ih1, ih2⟩ := ih { s with trace := s.trace ++ [.onMessage m] }
                simp only [hsa] at ih1 ih2
                constructor <;> simp [dispatchMsgs, hsa, hr, ih1, ih2]

theorem stringReceived_dbg (c : SessionCtor) (u : Serializer) (d1 d2 : Bool)
    (p : List Byte) (s : Proto) :
    (stringReceived ⟨c, u, d1⟩ p s).st = (stringReceived ⟨c, u, d2⟩ p s).st ∧
    (stringReceived ⟨c, u, d1⟩ p s).exc = (stringReceived ⟨c, u, d2⟩ p s).exc := by
  cases hu : u.unserialize p with
  | error e => constructor <;> simp [stringReceived, hu]
  | ok ms =>
      obtain ⟨h1, h2⟩ := dispatchMsgs_dbg c u d1 d2 ms s
      cases he : (dispatchMsgs ⟨c, u, d1⟩ ms s).exc with
      | none =>
          have he2 : (dispatchMsgs ⟨c, u, d2⟩ ms s).exc = none := by
            rw [← h2, he]
          constructor <;> simp [stringReceived, hu, he, he2, h1]
      | some e =>
          have he2 : (dispatchMsgs ⟨c, u, d2⟩ ms s).exc = some e := by
            rw [← h2, he]
          constructor <;> simp [stringReceived, hu, he, he2, h1]

theorem dispatchFrames_dbg (c : SessionCtor) (u : Serializer) (d1 d2 : Bool) :
    ∀ (fs : List (List Byte)) (s : Proto),
      (dispatchFrames ⟨c, u, d1⟩ fs s).st = (dispatchFrames ⟨c, u, d2⟩ fs s).st ∧
      (dispatchFrames ⟨c, u, d1⟩ fs s).exc = (dispatchFrames ⟨c, u, d2⟩ fs s).exc := by
  intro fs
  induction fs with
  | nil => intro s; exact ⟨rfl, rfl⟩
  | cons p ps ih =>
      intro s
      obtain ⟨h1, h2⟩ := stringReceived_dbg c u d1 d2 p s
      cases he : (stringReceived ⟨c, u, d1⟩ p s).exc with
      | none =>
          have he2 : (stringReceived ⟨c, u, d2⟩ p s).exc = none := by
            rw [← h2, he]
          obtain ⟨ih1, ih2⟩ := ih (stringReceived ⟨c, u, d1⟩ p s).st
          constructor <;> simp [dispatchFrames, he, he2, ← h1, ih1, ih2]
      | some e =>
          have he2 : (stringReceived ⟨c, u, d2⟩ p s).exc = some e := by
            rw [← h2, he]
          constructor <;> simp [dispatchFrames, he, he2, h1]

theorem dataReceived_dbg (c : SessionCtor) (u : Serializer) (d1 d2 : Bool)
    (data : List Byte) (s : Proto) :
    (dataReceived ⟨c, u, d1⟩ data s).st = (dataReceived ⟨c, u, d2⟩ data s).st ∧
    (dataReceived ⟨c, u, d1⟩ data s).exc = (dataReceived ⟨c, u, d2⟩ data s).exc := by
  obtain ⟨h1, h2⟩ := dispatchFrames_dbg c u d1 d2 (extractFrames (s.recvd ++ data)).1
    { s with recvd := (extractFrames (s.recvd ++ data)).2 }
  exact ⟨h1, h2⟩

theorem runReads_dbg (c : SessionCtor) (u : Serializer) (d1 d2 : Bool) :
    ∀ (reads : List (List Byte)) (s : Proto),
      (runReads ⟨c, u, d1⟩ reads s).st = (runReads ⟨c, u, d2⟩ reads s).st ∧
      (runReads ⟨c, u, d1⟩ reads s).exc = (runReads ⟨c, u, d2⟩ reads s).exc := by
  intro reads
  induction reads with
  | nil => intro s; exact ⟨rfl, rfl⟩
  | cons d ds ih =>
      intro s
      by_cases hp : s.transport.pendingLoss.isSome
      · constructor <;> simp [runReads, hp]
      · simp only [Bool.not_eq_true] at hp
        obtain ⟨h1, h2⟩ := dataReceived_dbg c u d1 d2 d s
        cases he : (dataReceived ⟨c, u, d1⟩ d s).exc with
        | none =>
            have he2 : (dataReceived ⟨c, u, d2⟩ d s).exc = none := by
              rw [← h2, he]
            obtain ⟨ih1, ih2⟩ := ih (dataReceived ⟨c, u, d1⟩ d s).st
            constructor <;>
              simp [runReads, hp, he, he2, ← h1, ih1, ih2]
        | some e =>
            have he2 : (dataReceived ⟨c, u, d2⟩ d s).exc = some e := by
              rw [← h2, he]
            constructor <;> simp [runReads, hp, he, he2, h1]

theorem connectionMade_dbg (c : SessionCtor) (u : Serializer) (d1 d2 : Bool)
    (s0 : Proto) :
    (connectionMade ⟨c, u, d1⟩ s0).st = (connectionMade ⟨c, u, d2⟩ s0).st ∧
    (connectionMade ⟨c, u, d1⟩ s0).exc = (connectionMade ⟨c, u, d2⟩ s0).exc := by
  cases c with
  | notCallable => constructor <;> simp [connectionMade]
  | callable r =>
      cases r with
      | error e => constructor <;> simp [connectionMade]
      | ok b =>
          by_cases ho : b.onOpenRaises <;> constructor <;> simp [connectionMade, ho]

theorem connectionLost_dbg (c : SessionCtor) (u : Serializer) (d1 d2 : Bool)
    (r : LossReason) (s : Proto) :
    (connectionLost ⟨c, u, d1⟩ r s).st = (connectionLost ⟨c, u, d2⟩ r s).st ∧
    (connectionLost ⟨c, u, d1⟩ r s).exc = (connectionLost ⟨c, u, d2⟩ r s).exc := by
  cases hsa : s.sessionAttr with
  | none => constructor <;> simp [connectionLost, hsa]
  | some v =>
      cases v with
      | none => constructor <;> simp [connectionLost, hsa]
      | some b => constructor <;> simp [connectionLost, hsa]

theorem settle_dbg (c : SessionCtor) (u : Serializer) (d1 d2 : Bool)
    (s : Proto) :
    (settle ⟨c, u, d1⟩ s).st = (settle ⟨c, u, d2⟩ s).st ∧
    (settle ⟨c, u, d1⟩ s).exc = (settle ⟨c, u, d2⟩ s).exc := by
  cases hp : s.transport.pendingLoss with
  | none => constructor <;> simp [settle, hp]
  | some r =>
      obtain ⟨h1, h2⟩ := connectionLost_dbg c u d1 d2 r s
      constructor <;> simp [settle, hp, h1, h2]

/-- C8: for any two runs of the transport differing only in the factory's
debug flag, the externally observable behavior is identical: the same state
results (hence the same messages dispatched to the session, the same framed
bytes written to the connection, the same state transitions) and the same
exceptions are raised, for whole connection runs as well as for individual
`send` calls; the flag changes only the emitted log lines. -/
theorem c8_debug_noninterference (c : SessionCtor) (u : Serializer)
    (d1 d2 hasA hasP : Bool) (reads : List (List Byte)) (m : Msg) (s : Proto) :
    (runConn ⟨c, u, d1⟩ hasA hasP reads).st = (runConn ⟨c, u, d2⟩ hasA hasP reads).st ∧
    (runConn ⟨c, u, d1⟩ hasA hasP reads).exc = (runConn ⟨c, u, d2⟩ hasA hasP reads).exc ∧
    (runConn ⟨c, u, d1⟩ hasA hasP reads).st.transport.written =
      (runConn ⟨c, u, d2⟩ hasA hasP reads).st.transport.written ∧
    (runConn ⟨c, u, d1⟩ hasA hasP reads).st.trace =
      (runConn ⟨c, u, d2⟩ hasA hasP reads).st.trace ∧
    (send ⟨c, u, d1⟩ m s).st = (send ⟨c, u, d2⟩ m s).st ∧
    (send ⟨c, u, d1⟩ m s).exc = (send ⟨c, u, d2⟩ m s).exc := by
  obtain ⟨hc1, hc2⟩ := connectionMade_dbg c u d1 d2 (initState hasA hasP)
  have hrun : (runConn ⟨c, u, d1⟩ hasA hasP reads).st =
      (runConn ⟨c, u, d2⟩ hasA hasP reads).st ∧
      (runConn ⟨c, u, d1⟩ hasA hasP reads).exc =
      (runConn ⟨c, u, d2⟩ hasA hasP reads).exc := by
    cases he : (connectionMade ⟨c, u, d1⟩ (initState hasA hasP)).exc with
    | some e =>
        have he2 : (connectionMade ⟨c, u, d2⟩ (initState hasA hasP)).exc = some e := by
          rw [← hc2, he]
        constructor <;> simp [runConn, he, he2, hc1]
    | none =>
        have he2 : (connectionMade ⟨c, u, d2⟩ (initState hasA hasP)).exc = none := by
          rw [← hc2, he]
        obtain ⟨hr1, hr2⟩ := runReads_dbg c u d1 d2 reads
          (connectionMade ⟨c, u, d1⟩ (initState hasA hasP)).st
        cases hre : (runReads ⟨c, u, d1⟩ reads
            (connectionMade ⟨c, u, d1⟩ (initState hasA hasP)).st).exc with
        | some e =>
            have hre2 : (runReads ⟨c, u, d2⟩ reads
                (connectionMade ⟨c, u, d1⟩ (initState hasA hasP)).st).exc = some e := by
              rw [← hr2, hre]
            constructor <;> simp [runConn, he, he2, ← hc1, hre, hre2, ← hr1]
        | none =>
            have hre2 : (runReads ⟨c, u, d2⟩ reads
                (connectionMade ⟨c, u, d1⟩ (initState hasA hasP)).st).exc = none := by
              rw [← hr2, hre]
            obtain ⟨hs1, hs2⟩ := settle_dbg c u d1 d2
              (runReads ⟨c, u, d1⟩ reads
                (connectionMade ⟨c, u, d1⟩ (initState hasA hasP)).st).st
            constructor <;>
              simp [runConn, he, he2, ← hc1, hre, hre2, ← hr1, hs1, hs2]
  obtain ⟨hsd1, hsd2⟩ := send_dbg c u d1 d2 m s
  exact ⟨hrun.1, hrun.2, by rw [hrun.1], by rw [hrun.1], hsd1, hsd2⟩

end RawSocket
